import Mathlib

/-!
Shallow embedding of the Go roman-numeral converter (main.go).

Go strings over the Roman alphabet are modelled as lists of characters
(all relevant characters are single-byte ASCII, so a Go byte string and a
list of characters coincide).  Go int64 values are modelled as Int; the
int64 arithmetic in this program never comes near the 64-bit bound for any
input considered here.  The Go uint16 conversion in findLargest is modelled
exactly as reduction modulo 2^16.  The Go maps are modelled as association
lists in the textual order of the source; every map operation performed by
the program (key lookup, filtering by symbol length, and a full scan that
keeps the strictly largest applicable key) is independent of iteration
order, since the keys are distinct.  log.Fatalf branches are modelled as
Option.none, and the possibly non-terminating conversion loop is modelled
with explicit fuel (fuel exhaustion with a positive remaining accumulator
is Option.none, i.e. divergence of the Go loop).
-/

namespace RomanConv

/-- NumType from main.go: the classifier's result. -/
inductive NumType where
  | Arabic
  | Roman
  | UnDef
deriving DecidableEq, Repr

/-- aTorMap from main.go: the subtractive arabic-to-roman symbol table. -/
def aTorMap : List (Nat × List Char) :=
  [(1000, ['M']), (900, ['C', 'M']), (500, ['D']), (400, ['C', 'D']),
   (100, ['C']), (90, ['X', 'C']), (50, ['L']), (40, ['X', 'L']),
   (10, ['X']), (9, ['I', 'X']), (5, ['V']), (4, ['I', 'V']), (1, ['I'])]

/-- rToaMap from main.go: the roman-to-arabic symbol table. -/
def rToaMap : List (List Char × Nat) :=
  [(['M'], 1000), (['C', 'M'], 900), (['D'], 500), (['C', 'D'], 400),
   (['C'], 100), (['X', 'C'], 90), (['L'], 50), (['X', 'L'], 40),
   (['X'], 10), (['I', 'X'], 9), (['V'], 5), (['I', 'V'], 4), (['I'], 1)]

/-- Lookup in rToaMap, modelling the Go map access v, fnd := rToaMap[s]. -/
def rToaLookup (s : List Char) : Option Nat :=
  (rToaMap.find? (fun p => p.1 == s)).map Prod.snd

/-- romanToArabic from main.go: scan left to right; at each position try the
two-character substring against the map first (advancing two positions),
then the single character (advancing one); an unmatched character is the
log.Fatalf branch, modelled as none.  At the last position the Go code
looks up the empty string (never a key) and falls through to the
single-character lookup. -/
def romanToArabic : List Char → Option Nat
  | [] => some 0
  | [c] =>
    match rToaLookup [c] with
    | some v => some v
    | none => none
  | c :: c2 :: rest =>
    match rToaLookup [c, c2] with
    | some v => (romanToArabic rest).map (fun t => v + t)
    | none =>
      match rToaLookup [c] with
      | some v => (romanToArabic (c2 :: rest)).map (fun t => v + t)
      | none => none

/-- findLargest from main.go: scan all entries of the map, keeping the
largest key that is at most uint16(n); the Go conversion uint16(n) takes
the low 16 bits, i.e. n mod 2^16.  Returns (0, "") when no key applies,
exactly as the Go zero-valued accumulators do. -/
def findLargest (n : Int) (m : List (Nat × List Char)) : Nat × List Char :=
  m.foldl
    (fun acc p => if (n % 65536).toNat ≥ p.1 ∧ p.1 > acc.1 then p else acc)
    (0, [])

/-- makeAddMap from main.go: keep only the single-symbol entries. -/
def makeAddMap (inmap : List (Nat × List Char)) : List (Nat × List Char) :=
  inmap.filter (fun p => p.2.length == 1)

/-- The loop of arabicToRoman from main.go, with explicit fuel: while
current is positive, find the largest applicable entry, append its symbol
and subtract its value.  Running out of fuel with current still positive
models non-termination of the Go loop and yields none. -/
def a2rLoop (m : List (Nat × List Char)) : Nat → Int → List Char → Option (List Char)
  | 0, current, acc => if current > 0 then none else some acc
  | fuel + 1, current, acc =>
    if current > 0 then
      let p := findLargest current m
      a2rLoop m fuel (current - (p.1 : Int)) (acc ++ p.2)
    else some acc

/-- arabicToRoman from main.go: select the table by the additive flag and
run the greedy loop.  Fuel val.toNat suffices whenever the Go loop
terminates: for val in [1, 65535] every iteration subtracts at least 1,
and for val ≤ 0 the loop body never runs. -/
def arabicToRoman (addF : Bool) (val : Int) : Option (List Char) :=
  a2rLoop (if addF then makeAddMap aTorMap else aTorMap) val.toNat val []

/-- isValArabic from main.go: an error (some message) exactly on the two
out-of-range branches, none on success. -/
def isValArabic (num : Int) : Option String :=
  if num > 4000 then some "greater than 4000"
  else if num < 1 then some "less than 1"
  else none

/-- The set of valid Roman symbol characters, as in the classifier's
character class [IVXLCDM]. -/
def romanChars : List Char := ['I', 'V', 'X', 'L', 'C', 'D', 'M']

/-- The semantics of the Go regular expression [1-9][0-9]* anchored on both
sides, from whichNumeralType in main.go: a first character in 1-9 followed
by any number of characters in 0-9. -/
def matchArabicPat : List Char → Bool
  | [] => false
  | c :: rest => ('1' ≤ c && c ≤ '9') && rest.all (fun d => '0' ≤ d && d ≤ '9')

/-- The semantics of the Go regular expression [IVXLCDM]+ anchored on both
sides, from whichNumeralType in main.go: a non-empty string of Roman symbol
characters. -/
def matchRomanPat (s : List Char) : Bool :=
  !s.isEmpty && s.all (fun c => romanChars.contains c)

/-- whichNumeralType from main.go: Arabic if the arabic pattern matches,
else Roman if the roman pattern matches, else UnDef. -/
def whichNumeralType (s : List Char) : NumType :=
  if matchArabicPat s then NumType.Arabic
  else if matchRomanPat s then NumType.Roman
  else NumType.UnDef

/-- Decimal digits of a Nat, most significant first, with structural fuel
(any fuel at least the digit count gives the exact fmt %d rendering). -/
def natDecAux : Nat → Nat → List Char
  | 0, _ => []
  | fuel + 1, n =>
    if n < 10 then [Char.ofNat (48 + n)]
    else natDecAux fuel (n / 10) ++ [Char.ofNat (48 + n % 10)]

/-- Decimal rendering of a Nat, as Go fmt %d produces for a non-negative
value; n + 1 units of fuel always cover the digit count of n. -/
def natDec (n : Nat) : List Char := natDecAux (n + 1) n

/-- Decimal rendering of an Int, as Go fmt %d: a minus sign followed by the
digits of the absolute value when negative. -/
def intDec (n : Int) : List Char :=
  if n < 0 then '-' :: natDec (-n).toNat else natDec n.toNat

/-- formatValue from main.go, with the global flags simpleOutF and addF as
parameters: for Roman output type, either just the roman string (simple) or
"arabic = roman" plus a tab-and-(add) suffix in additive mode; for Arabic
output type, either just the number or "roman = arabic"; otherwise NA. -/
def formatValue (simpleOutF addF : Bool) (arVal : Int) (romVal : List Char) :
    NumType → List Char
  | NumType.Roman =>
    if simpleOutF then romVal
    else
      intDec arVal ++ (" = ").data ++ romVal ++
        (if addF then ("\t (add)").data else [])
  | NumType.Arabic =>
    if simpleOutF then intDec arVal
    else romVal ++ (" = ").data ++ intDec arVal
  | NumType.UnDef => ("NA").data

/-- genRange from main.go, with the global flags as parameters: one
formatted line per integer from startF to endF inclusive (none if any
conversion diverges, which never happens for the ranges considered). -/
def genRange (addF simpleOutF : Bool) (startF endF : Int) :
    Option (List (List Char)) :=
  (List.range (endF + 1 - startF).toNat).mapM
    (fun k =>
      (arabicToRoman addF (startF + (k : Int))).map
        (fun r => formatValue simpleOutF addF (startF + (k : Int)) r NumType.Roman))

/-- Modelled from the spec, section 4.4: the entry of the table with the
largest value that is at most n, with (0, "") when no entry applies.  This
is the "find the largest symbol-table entry whose value is ≤ the remaining
accumulator" step stated by the spec. -/
def largestLE (m : List (Nat × List Char)) (n : Nat) : Nat × List Char :=
  m.foldl (fun acc p => if p.1 ≤ n ∧ acc.1 < p.1 then p else acc) (0, [])

/-- Modelled from the spec, section 4.4: the greedy algorithm itself —
repeatedly take the largest entry whose value is ≤ the accumulator, append
its symbol, subtract its value, and stop when the accumulator reaches zero
(for the program's tables the guard fails exactly at zero, since every
positive accumulator has an applicable entry of positive value ≤ it). -/
def greedySpec (m : List (Nat × List Char)) (n : Nat) : List Char :=
  if hstep : 0 < (largestLE m n).1 ∧ (largestLE m n).1 ≤ n then
    (largestLE m n).2 ++ greedySpec m (n - (largestLE m n).1)
  else []
termination_by n
decreasing_by omega

/-- Modelled from the spec, section 4.3: the position-based left-to-right
scan.  At position i, first match the two-character substring starting at i
against the two-character (subtractive pair) entries of the table and
advance two positions on success; otherwise match the single character at i
against the single-character entries and advance one; otherwise fail. -/
def specScan (s : List Char) (i : Nat) : Option Nat :=
  if h : i < s.length then
    match (rToaMap.filter (fun p => p.1.length == 2)).find?
        (fun p => p.1 == (s.drop i).take 2) with
    | some p => (specScan s (i + 2)).map (fun t => p.2 + t)
    | none =>
      match (rToaMap.filter (fun p => p.1.length == 1)).find?
          (fun p => p.1 == [s.get ⟨i, h⟩]) with
      | some p => (specScan s (i + 1)).map (fun t => p.2 + t)
      | none => none
  else some 0
termination_by s.length - i
decreasing_by
  all_goals omega

/-- Modelled from the spec, section 4.1: the shape of an Arabic input — a
digit 1-9 followed by any number of digits 0-9. -/
def ArabicShape (s : List Char) : Prop :=
  ∃ c rest, s = c :: rest ∧ '1' ≤ c ∧ c ≤ '9' ∧ ∀ d ∈ rest, '0' ≤ d ∧ d ≤ '9'

/-- Modelled from the spec, section 4.1: the shape of a Roman input — a
non-empty string over the alphabet I V X L C D M. -/
def RomanShape (s : List Char) : Prop :=
  s ≠ [] ∧ ∀ c ∈ s, c ∈ romanChars

/-- The additive table is the subtractive table without the two-symbol
entries. -/
theorem makeAddMap_eval : makeAddMap aTorMap =
    [(1000, ['M']), (500, ['D']), (100, ['C']), (50, ['L']),
     (10, ['X']), (5, ['V']), (1, ['I'])] := by decide

/-- Closed form of the largest-applicable-entry search on the subtractive
table. -/
theorem largestLE_aTorMap (u : Nat) : largestLE aTorMap u =
    if 1000 ≤ u then (1000, ['M'])
    else if 900 ≤ u then (900, ['C', 'M'])
    else if 500 ≤ u then (500, ['D'])
    else if 400 ≤ u then (400, ['C', 'D'])
    else if 100 ≤ u then (100, ['C'])
    else if 90 ≤ u then (90, ['X', 'C'])
    else if 50 ≤ u then (50, ['L'])
    else if 40 ≤ u then (40, ['X', 'L'])
    else if 10 ≤ u then (10, ['X'])
    else if 9 ≤ u then (9, ['I', 'X'])
    else if 5 ≤ u then (5, ['V'])
    else if 4 ≤ u then (4, ['I', 'V'])
    else if 1 ≤ u then (1, ['I'])
    else (0, []) := by
  simp only [largestLE, aTorMap, List.foldl]
  by_cases h1 : 1000 ≤ u
  · simp [h1]
  · by_cases h2 : 900 ≤ u
    · simp [h1, h2]
    · by_cases h3 : 500 ≤ u
      · simp [h1, h2, h3]
      · by_cases h4 : 400 ≤ u
        · simp [h1, h2, h3, h4]
        · by_cases h5 : 100 ≤ u
          · simp [h1, h2, h3, h4, h5]
          · by_cases h6 : 90 ≤ u
            · simp [h1, h2, h3, h4, h5, h6]
            · by_cases h7 : 50 ≤ u
              · simp [h1, h2, h3, h4, h5, h6, h7]
              · by_cases h8 : 40 ≤ u
                · simp [h1, h2, h3, h4, h5, h6, h7, h8]
                · by_cases h9 : 10 ≤ u
                  · simp [h1, h2, h3, h4, h5, h6, h7, h8, h9]
                  · by_cases h10 : 9 ≤ u
                    · simp [h1, h2, h3, h4, h5, h6, h7, h8, h9, h10]
                    · by_cases h11 : 5 ≤ u
                      · simp [h1, h2, h3, h4, h5, h6, h7, h8, h9, h10, h11]
                      · by_cases h12 : 4 ≤ u
                        · simp [h1, h2, h3, h4, h5, h6, h7, h8, h9, h10, h11, h12]
                        · by_cases h13 : 1 ≤ u
                          · simp [h1, h2, h3, h4, h5, h6, h7, h8, h9, h10, h11,
                              h12, h13]
                          · simp [h1, h2, h3, h4, h5, h6, h7, h8, h9, h10, h11,
                              h12, h13]

/-- Closed form of the largest-applicable-entry search on the additive
table. -/
theorem largestLE_addMap (u : Nat) : largestLE (makeAddMap aTorMap) u =
    if 1000 ≤ u then (1000, ['M'])
    else if 500 ≤ u then (500, ['D'])
    else if 100 ≤ u then (100, ['C'])
    else if 50 ≤ u then (50, ['L'])
    else if 10 ≤ u then (10, ['X'])
    else if 5 ≤ u then (5, ['V'])
    else if 1 ≤ u then (1, ['I'])
    else (0, []) := by
  rw [makeAddMap_eval]
  simp only [largestLE, List.foldl]
  by_cases h1 : 1000 ≤ u
  · simp [h1]
  · by_cases h2 : 500 ≤ u
    · simp [h1, h2]
    · by_cases h3 : 100 ≤ u
      · simp [h1, h2, h3]
      · by_cases h4 : 50 ≤ u
        · simp [h1, h2, h3, h4]
        · by_cases h5 : 10 ≤ u
          · simp [h1, h2, h3, h4, h5]
          · by_cases h6 : 5 ≤ u
            · simp [h1, h2, h3, h4, h5, h6]
            · by_cases h7 : 1 ≤ u
              · simp [h1, h2, h3, h4, h5, h6, h7]
              · simp [h1, h2, h3, h4, h5, h6, h7]

/-- Closed form of the table lookup on a one-character string. -/
theorem rToaLookup_single (c : Char) : rToaLookup [c] =
    if c = 'M' then some 1000
    else if c = 'D' then some 500
    else if c = 'C' then some 100
    else if c = 'L' then some 50
    else if c = 'X' then some 10
    else if c = 'V' then some 5
    else if c = 'I' then some 1
    else none := by
  by_cases h1 : c = 'M'
  · subst h1; decide
  · by_cases h2 : c = 'D'
    · subst h2; decide
    · by_cases h3 : c = 'C'
      · subst h3; decide
      · by_cases h4 : c = 'L'
        · subst h4; decide
        · by_cases h5 : c = 'X'
          · subst h5; decide
          · by_cases h6 : c = 'V'
            · subst h6; decide
            · by_cases h7 : c = 'I'
              · subst h7; decide
              · simp [rToaLookup, rToaMap, List.find?, h1, h2, h3, h4, h5, h6, h7,
                  beq_eq_false_iff_ne.mpr (Ne.symm h1),
                  beq_eq_false_iff_ne.mpr (Ne.symm h2),
                  beq_eq_false_iff_ne.mpr (Ne.symm h3),
                  beq_eq_false_iff_ne.mpr (Ne.symm h4),
                  beq_eq_false_iff_ne.mpr (Ne.symm h5),
                  beq_eq_false_iff_ne.mpr (Ne.symm h6),
                  beq_eq_false_iff_ne.mpr (Ne.symm h7)]

/-- Closed form of the table lookup on a two-character string: exactly the
six subtractive pairs are keys. -/
theorem rToaLookup_pair (c d : Char) : rToaLookup [c, d] =
    if c = 'C' then
      (if d = 'M' then some 900 else if d = 'D' then some 400 else none)
    else if c = 'X' then
      (if d = 'C' then some 90 else if d = 'L' then some 40 else none)
    else if c = 'I' then
      (if d = 'X' then some 9 else if d = 'V' then some 4 else none)
    else none := by
  by_cases hc : c = 'C'
  · subst hc
    by_cases hd : d = 'M'
    · subst hd; decide
    · by_cases hd2 : d = 'D'
      · subst hd2; decide
      · simp [rToaLookup, rToaMap, List.find?, hd, hd2,
          beq_eq_false_iff_ne.mpr (Ne.symm hd),
          beq_eq_false_iff_ne.mpr (Ne.symm hd2)]
  · by_cases hx : c = 'X'
    · subst hx
      by_cases hd : d = 'C'
      · subst hd; decide
      · by_cases hd2 : d = 'L'
        · subst hd2; decide
        · simp [rToaLookup, rToaMap, List.find?, hc, hd, hd2,
            beq_eq_false_iff_ne.mpr (Ne.symm hd),
            beq_eq_false_iff_ne.mpr (Ne.symm hd2)]
    · by_cases hi : c = 'I'
      · subst hi
        by_cases hd : d = 'X'
        · subst hd; decide
        · by_cases hd2 : d = 'V'
          · subst hd2; decide
          · simp [rToaLookup, rToaMap, List.find?, hc, hx, hd, hd2,
              beq_eq_false_iff_ne.mpr (Ne.symm hd),
              beq_eq_false_iff_ne.mpr (Ne.symm hd2)]
      · simp [rToaLookup, rToaMap, List.find?, hc, hx, hi,
          beq_eq_false_iff_ne.mpr (Ne.symm hc),
          beq_eq_false_iff_ne.mpr (Ne.symm hx),
          beq_eq_false_iff_ne.mpr (Ne.symm hi)]

/-- No key of the table has three or more characters. -/
theorem rToaLookup_long (c d e : Char) (rest : List Char) :
    rToaLookup (c :: d :: e :: rest) = none := by
  simp [rToaLookup, rToaMap, List.find?]

theorem parse_cons_of_single (c : Char) (v : Nat) (rest : List Char)
    (hsingle : rToaLookup [c] = some v)
    (hpair : ∀ d, rest.head? = some d → rToaLookup [c, d] = none) :
    romanToArabic (c :: rest) = (romanToArabic rest).map (fun t => v + t) := by
  cases rest with
  | nil => simp [romanToArabic, hsingle]
  | cons d t =>
    have h2 := hpair d rfl
    simp [romanToArabic, h2, hsingle]

theorem parse_cons_pair (c d : Char) (v : Nat) (rest : List Char)
    (hpair : rToaLookup [c, d] = some v) :
    romanToArabic (c :: d :: rest) = (romanToArabic rest).map (fun t => v + t) := by
  simp [romanToArabic, hpair]

theorem parse_cons_M (rest : List Char) :
    romanToArabic ('M' :: rest) = (romanToArabic rest).map (fun t => 1000 + t) := by
  apply parse_cons_of_single _ _ _ (by decide)
  intro d _
  rw [rToaLookup_pair]
  simp

theorem parse_cons_D (rest : List Char) :
    romanToArabic ('D' :: rest) = (romanToArabic rest).map (fun t => 500 + t) := by
  apply parse_cons_of_single _ _ _ (by decide)
  intro d _
  rw [rToaLookup_pair]
  simp

theorem parse_cons_L (rest : List Char) :
    romanToArabic ('L' :: rest) = (romanToArabic rest).map (fun t => 50 + t) := by
  apply parse_cons_of_single _ _ _ (by decide)
  intro d _
  rw [rToaLookup_pair]
  simp

theorem parse_cons_V (rest : List Char) :
    romanToArabic ('V' :: rest) = (romanToArabic rest).map (fun t => 5 + t) := by
  apply parse_cons_of_single _ _ _ (by decide)
  intro d _
  rw [rToaLookup_pair]
  simp

theorem parse_cons_C (rest : List Char)
    (h1 : rest.head? ≠ some 'M') (h2 : rest.head? ≠ some 'D') :
    romanToArabic ('C' :: rest) = (romanToArabic rest).map (fun t => 100 + t) := by
  apply parse_cons_of_single _ _ _ (by decide)
  intro d hd
  rw [rToaLookup_pair]
  have hdM : ¬ d = 'M' := fun he => h1 (he ▸ hd)
  have hdD : ¬ d = 'D' := fun he => h2 (he ▸ hd)
  simp [hdM, hdD]

theorem parse_cons_X (rest : List Char)
    (h1 : rest.head? ≠ some 'C') (h2 : rest.head? ≠ some 'L') :
    romanToArabic ('X' :: rest) = (romanToArabic rest).map (fun t => 10 + t) := by
  apply parse_cons_of_single _ _ _ (by decide)
  intro d hd
  rw [rToaLookup_pair]
  have hdC : ¬ d = 'C' := fun he => h1 (he ▸ hd)
  have hdL : ¬ d = 'L' := fun he => h2 (he ▸ hd)
  simp [hdC, hdL]

theorem parse_cons_I (rest : List Char)
    (h1 : rest.head? ≠ some 'X') (h2 : rest.head? ≠ some 'V') :
    romanToArabic ('I' :: rest) = (romanToArabic rest).map (fun t => 1 + t) := by
  apply parse_cons_of_single _ _ _ (by decide)
  intro d hd
  rw [rToaLookup_pair]
  have hdX : ¬ d = 'X' := fun he => h1 (he ▸ hd)
  have hdV : ¬ d = 'V' := fun he => h2 (he ▸ hd)
  simp [hdX, hdV]

theorem greedy_sub_head_notMD (m : Nat) (hm : m < 500) :
    (greedySpec aTorMap m).head? ≠ some 'M' ∧ (greedySpec aTorMap m).head? ≠ some 'D' := by
  have n1 : ¬ 1000 ≤ m := by omega
  have n2 : ¬ 900 ≤ m := by omega
  have n3 : ¬ 500 ≤ m := by omega
  by_cases h4 : 400 ≤ m
  · have hL : largestLE aTorMap m = (400, ['C', 'D']) := by
      rw [largestLE_aTorMap]; simp [n1, n2, n3, h4]
    rw [greedySpec, hL]
    simp [h4]
  · by_cases h5 : 100 ≤ m
    · have hL : largestLE aTorMap m = (100, ['C']) := by
        rw [largestLE_aTorMap]; simp [n1, n2, n3, h4, h5]
      rw [greedySpec, hL]
      simp [h5]
    · by_cases h6 : 90 ≤ m
      · have hL : largestLE aTorMap m = (90, ['X', 'C']) := by
          rw [largestLE_aTorMap]; simp [n1, n2, n3, h4, h5, h6]
        rw [greedySpec, hL]
        simp [h6]
      · by_cases h7 : 50 ≤ m
        · have hL : largestLE aTorMap m = (50, ['L']) := by
            rw [largestLE_aTorMap]; simp [n1, n2, n3, h4, h5, h6, h7]
          rw [greedySpec, hL]
          simp [h7]
        · by_cases h8 : 40 ≤ m
          · have hL : largestLE aTorMap m = (40, ['X', 'L']) := by
              rw [largestLE_aTorMap]; simp [n1, n2, n3, h4, h5, h6, h7, h8]
            rw [greedySpec, hL]
            simp [h8]
          · by_cases h9 : 10 ≤ m
            · have hL : largestLE aTorMap m = (10, ['X']) := by
                rw [largestLE_aTorMap]; simp [n1, n2, n3, h4, h5, h6, h7, h8, h9]
              rw [greedySpec, hL]
              simp [h9]
            · by_cases h10 : 9 ≤ m
              · have hL : largestLE aTorMap m = (9, ['I', 'X']) := by
                  rw [largestLE_aTorMap]; simp [n1, n2, n3, h4, h5, h6, h7, h8, h9, h10]
                rw [greedySpec, hL]
                simp [h10]
              · by_cases h11 : 5 ≤ m
                · have hL : largestLE aTorMap m = (5, ['V']) := by
                    rw [largestLE_aTorMap]; simp [n1, n2, n3, h4, h5, h6, h7, h8, h9, h10, h11]
                  rw [greedySpec, hL]
                  simp [h11]
                · by_cases h12 : 4 ≤ m
                  · have hL : largestLE aTorMap m = (4, ['I', 'V']) := by
                      rw [largestLE_aTorMap]; simp [n1, n2, n3, h4, h5, h6, h7, h8, h9, h10, h11, h12]
                    rw [greedySpec, hL]
                    simp [h12]
                  · by_cases h13 : 1 ≤ m
                    · have hL : largestLE aTorMap m = (1, ['I']) := by
                        rw [largestLE_aTorMap]; simp [n1, n2, n3, h4, h5, h6, h7, h8, h9, h10, h11, h12, h13]
                      rw [greedySpec, hL]
                      simp [h13]
                    · have hL : largestLE aTorMap m = (0, []) := by
                        rw [largestLE_aTorMap]; simp [n1, n2, n3, h4, h5, h6, h7, h8, h9, h10, h11, h12, h13]
                      rw [greedySpec, hL]
                      simp

theorem greedySpec_step (m : List (Nat × List Char)) (u a : Nat) (r : List Char)
    (hL : largestLE m u = (a, r)) (ha : 0 < a) (hau : a ≤ u) :
    greedySpec m u = r ++ greedySpec m (u - a) := by
  rw [greedySpec, hL]
  exact dif_pos ⟨ha, hau⟩

theorem greedySpec_stop (m : List (Nat × List Char)) (u : Nat)
    (hL : (largestLE m u).1 = 0) : greedySpec m u = [] := by
  rw [greedySpec]
  exact dif_neg (by omega)

theorem greedy_sub_head_notCL (m : Nat) (hm : m < 40) :
    (greedySpec aTorMap m).head? ≠ some 'C' ∧ (greedySpec aTorMap m).head? ≠ some 'L' := by
  have n1 : ¬ 1000 ≤ m := by omega
  have n2 : ¬ 900 ≤ m := by omega
  have n3 : ¬ 500 ≤ m := by omega
  have n4 : ¬ 400 ≤ m := by omega
  have n5 : ¬ 100 ≤ m := by omega
  have n6 : ¬ 90 ≤ m := by omega
  have n7 : ¬ 50 ≤ m := by omega
  have n8 : ¬ 40 ≤ m := by omega
  by_cases h9 : 10 ≤ m
  · have hL : largestLE aTorMap m = (10, ['X']) := by
      rw [largestLE_aTorMap]; simp [n1, n2, n3, n4, n5, n6, n7, n8, h9]
    rw [greedySpec_step _ _ _ _ hL (by norm_num) h9]
    simp
  · by_cases h10 : 9 ≤ m
    · have hL : largestLE aTorMap m = (9, ['I', 'X']) := by
        rw [largestLE_aTorMap]; simp [n1, n2, n3, n4, n5, n6, n7, n8, h9, h10]
      rw [greedySpec_step _ _ _ _ hL (by norm_num) h10]
      simp
    · by_cases h11 : 5 ≤ m
      · have hL : largestLE aTorMap m = (5, ['V']) := by
          rw [largestLE_aTorMap]; simp [n1, n2, n3, n4, n5, n6, n7, n8, h9, h10, h11]
        rw [greedySpec_step _ _ _ _ hL (by norm_num) h11]
        simp
      · by_cases h12 : 4 ≤ m
        · have hL : largestLE aTorMap m = (4, ['I', 'V']) := by
            rw [largestLE_aTorMap]; simp [n1, n2, n3, n4, n5, n6, n7, n8, h9, h10, h11, h12]
          rw [greedySpec_step _ _ _ _ hL (by norm_num) h12]
          simp
        · by_cases h13 : 1 ≤ m
          · have hL : largestLE aTorMap m = (1, ['I']) := by
              rw [largestLE_aTorMap]; simp [n1, n2, n3, n4, n5, n6, n7, n8, h9, h10, h11, h12, h13]
            rw [greedySpec_step _ _ _ _ hL (by norm_num) h13]
            simp
          · have hL : largestLE aTorMap m = (0, []) := by
              rw [largestLE_aTorMap]; simp [n1, n2, n3, n4, n5, n6, n7, n8, h9, h10, h11, h12, h13]
            rw [greedySpec_stop _ _ (by rw [hL])]
            simp

theorem greedy_sub_head_notVX (m : Nat) (hm : m < 4) :
    (greedySpec aTorMap m).head? ≠ some 'V' ∧ (greedySpec aTorMap m).head? ≠ some 'X' := by
  have n1 : ¬ 1000 ≤ m := by omega
  have n2 : ¬ 900 ≤ m := by omega
  have n3 : ¬ 500 ≤ m := by omega
  have n4 : ¬ 400 ≤ m := by omega
  have n5 : ¬ 100 ≤ m := by omega
  have n6 : ¬ 90 ≤ m := by omega
  have n7 : ¬ 50 ≤ m := by omega
  have n8 : ¬ 40 ≤ m := by omega
  have n9 : ¬ 10 ≤ m := by omega
  have n10 : ¬ 9 ≤ m := by omega
  have n11 : ¬ 5 ≤ m := by omega
  have n12 : ¬ 4 ≤ m := by omega
  by_cases h13 : 1 ≤ m
  · have hL : largestLE aTorMap m = (1, ['I']) := by
      rw [largestLE_aTorMap]
      simp [n1, n2, n3, n4, n5, n6, n7, n8, n9, n10, n11, n12, h13]
    rw [greedySpec_step _ _ _ _ hL (by norm_num) h13]
    simp
  · have hL : largestLE aTorMap m = (0, []) := by
      rw [largestLE_aTorMap]
      simp [n1, n2, n3, n4, n5, n6, n7, n8, n9, n10, n11, n12, h13]
    rw [greedySpec_stop _ _ (by rw [hL])]
    simp

theorem parse_greedy_sub : ∀ n : Nat, n ≤ 4000 →
    romanToArabic (greedySpec aTorMap n) = some n := by
  intro n
  induction n using Nat.strong_induction_on with
  | _ n IH =>
    intro hn
    by_cases h1 : 1000 ≤ n
    · have hL : largestLE aTorMap n = (1000, ['M']) := by
        rw [largestLE_aTorMap]; simp [h1]
      rw [greedySpec_step _ _ _ _ hL (by norm_num) h1]
      show romanToArabic ('M' :: greedySpec aTorMap (n - 1000)) = some n
      rw [parse_cons_M, IH (n - 1000) (by omega) (by omega)]
      show some (1000 + (n - 1000)) = some n
      exact congrArg some (by omega)
    · by_cases h2 : 900 ≤ n
      · have hL : largestLE aTorMap n = (900, ['C', 'M']) := by
          rw [largestLE_aTorMap]; simp [h1, h2]
        rw [greedySpec_step _ _ _ _ hL (by norm_num) h2]
        show romanToArabic ('C' :: 'M' :: greedySpec aTorMap (n - 900)) = some n
        rw [parse_cons_pair 'C' 'M' 900 _ (by decide), IH (n - 900) (by omega) (by omega)]
        show some (900 + (n - 900)) = some n
        exact congrArg some (by omega)
      · by_cases h3 : 500 ≤ n
        · have hL : largestLE aTorMap n = (500, ['D']) := by
            rw [largestLE_aTorMap]; simp [h1, h2, h3]
          rw [greedySpec_step _ _ _ _ hL (by norm_num) h3]
          show romanToArabic ('D' :: greedySpec aTorMap (n - 500)) = some n
          rw [parse_cons_D, IH (n - 500) (by omega) (by omega)]
          show some (500 + (n - 500)) = some n
          exact congrArg some (by omega)
        · by_cases h4 : 400 ≤ n
          · have hL : largestLE aTorMap n = (400, ['C', 'D']) := by
              rw [largestLE_aTorMap]; simp [h1, h2, h3, h4]
            rw [greedySpec_step _ _ _ _ hL (by norm_num) h4]
            show romanToArabic ('C' :: 'D' :: greedySpec aTorMap (n - 400)) = some n
            rw [parse_cons_pair 'C' 'D' 400 _ (by decide), IH (n - 400) (by omega) (by omega)]
            show some (400 + (n - 400)) = some n
            exact congrArg some (by omega)
          · by_cases h5 : 100 ≤ n
            · have hL : largestLE aTorMap n = (100, ['C']) := by
                rw [largestLE_aTorMap]; simp [h1, h2, h3, h4, h5]
              rw [greedySpec_step _ _ _ _ hL (by norm_num) h5]
              show romanToArabic ('C' :: greedySpec aTorMap (n - 100)) = some n
              obtain ⟨hh1, hh2⟩ := greedy_sub_head_notMD (n - 100) (by omega)
              rw [parse_cons_C _ hh1 hh2, IH (n - 100) (by omega) (by omega)]
              show some (100 + (n - 100)) = some n
              exact congrArg some (by omega)
            · by_cases h6 : 90 ≤ n
              · have hL : largestLE aTorMap n = (90, ['X', 'C']) := by
                  rw [largestLE_aTorMap]; simp [h1, h2, h3, h4, h5, h6]
                rw [greedySpec_step _ _ _ _ hL (by norm_num) h6]
                show romanToArabic ('X' :: 'C' :: greedySpec aTorMap (n - 90)) = some n
                rw [parse_cons_pair 'X' 'C' 90 _ (by decide), IH (n - 90) (by omega) (by omega)]
                show some (90 + (n - 90)) = some n
                exact congrArg some (by omega)
              · by_cases h7 : 50 ≤ n
                · have hL : largestLE aTorMap n = (50, ['L']) := by
                    rw [largestLE_aTorMap]; simp [h1, h2, h3, h4, h5, h6, h7]
                  rw [greedySpec_step _ _ _ _ hL (by norm_num) h7]
                  show romanToArabic ('L' :: greedySpec aTorMap (n - 50)) = some n
                  rw [parse_cons_L, IH (n - 50) (by omega) (by omega)]
                  show some (50 + (n - 50)) = some n
                  exact congrArg some (by omega)
                · by_cases h8 : 40 ≤ n
                  · have hL : largestLE aTorMap n = (40, ['X', 'L']) := by
                      rw [largestLE_aTorMap]; simp [h1, h2, h3, h4, h5, h6, h7, h8]
                    rw [greedySpec_step _ _ _ _ hL (by norm_num) h8]
                    show romanToArabic ('X' :: 'L' :: greedySpec aTorMap (n - 40)) = some n
                    rw [parse_cons_pair 'X' 'L' 40 _ (by decide), IH (n - 40) (by omega) (by omega)]
                    show some (40 + (n - 40)) = some n
                    exact congrArg some (by omega)
                  · by_cases h9 : 10 ≤ n
                    · have hL : largestLE aTorMap n = (10, ['X']) := by
                        rw [largestLE_aTorMap]; simp [h1, h2, h3, h4, h5, h6, h7, h8, h9]
                      rw [greedySpec_step _ _ _ _ hL (by norm_num) h9]
                      show romanToArabic ('X' :: greedySpec aTorMap (n - 10)) = some n
                      obtain ⟨hh1, hh2⟩ := greedy_sub_head_notCL (n - 10) (by omega)
                      rw [parse_cons_X _ hh1 hh2, IH (n - 10) (by omega) (by omega)]
                      show some (10 + (n - 10)) = some n
                      exact congrArg some (by omega)
                    · by_cases h10 : 9 ≤ n
                      · have hL : largestLE aTorMap n = (9, ['I', 'X']) := by
                          rw [largestLE_aTorMap]; simp [h1, h2, h3, h4, h5, h6, h7, h8, h9, h10]
                        rw [greedySpec_step _ _ _ _ hL (by norm_num) h10]
                        show romanToArabic ('I' :: 'X' :: greedySpec aTorMap (n - 9)) = some n
                        rw [parse_cons_pair 'I' 'X' 9 _ (by decide), IH (n - 9) (by omega) (by omega)]
                        show some (9 + (n - 9)) = some n
                        exact congrArg some (by omega)
                      · by_cases h11 : 5 ≤ n
                        · have hL : largestLE aTorMap n = (5, ['V']) := by
                            rw [largestLE_aTorMap]; simp [h1, h2, h3, h4, h5, h6, h7, h8, h9, h10, h11]
                          rw [greedySpec_step _ _ _ _ hL (by norm_num) h11]
                          show romanToArabic ('V' :: greedySpec aTorMap (n - 5)) = some n
                          rw [parse_cons_V, IH (n - 5) (by omega) (by omega)]
                          show some (5 + (n - 5)) = some n
                          exact congrArg some (by omega)
                        · by_cases h12 : 4 ≤ n
                          · have hL : largestLE aTorMap n = (4, ['I', 'V']) := by
                              rw [largestLE_aTorMap]; simp [h1, h2, h3, h4, h5, h6, h7, h8, h9, h10, h11, h12]
                            rw [greedySpec_step _ _ _ _ hL (by norm_num) h12]
                            show romanToArabic ('I' :: 'V' :: greedySpec aTorMap (n - 4)) = some n
                            rw [parse_cons_pair 'I' 'V' 4 _ (by decide), IH (n - 4) (by omega) (by omega)]
                            show some (4 + (n - 4)) = some n
                            exact congrArg some (by omega)
                          · by_cases h13 : 1 ≤ n
                            · have hL : largestLE aTorMap n = (1, ['I']) := by
                                rw [largestLE_aTorMap]
                                simp [h1, h2, h3, h4, h5, h6, h7, h8, h9, h10, h11, h12, h13]
                              rw [greedySpec_step _ _ _ _ hL (by norm_num) h13]
                              show romanToArabic ('I' :: greedySpec aTorMap (n - 1)) = some n
                              obtain ⟨hh1, hh2⟩ := greedy_sub_head_notVX (n - 1) (by omega)
                              rw [parse_cons_I _ hh2 hh1, IH (n - 1) (by omega) (by omega)]
                              show some (1 + (n - 1)) = some n
                              exact congrArg some (by omega)
                            · have hz : n = 0 := by omega
                              subst hz
                              have hL : (largestLE aTorMap 0).1 = 0 := by
                                rw [largestLE_aTorMap]; simp
                              rw [greedySpec_stop _ _ hL]
                              rfl

theorem greedy_add_head_notMD (m : Nat) (hm : m < 500) :
    (greedySpec (makeAddMap aTorMap) m).head? ≠ some 'M' ∧
      (greedySpec (makeAddMap aTorMap) m).head? ≠ some 'D' := by
  have n1 : ¬ 1000 ≤ m := by omega
  have n2 : ¬ 500 ≤ m := by omega
  by_cases h3 : 100 ≤ m
  · have hL : largestLE (makeAddMap aTorMap) m = (100, ['C']) := by
      rw [largestLE_addMap]; simp [n1, n2, h3]
    rw [greedySpec_step _ _ _ _ hL (by norm_num) h3]
    simp
  · by_cases h4 : 50 ≤ m
    · have hL : largestLE (makeAddMap aTorMap) m = (50, ['L']) := by
        rw [largestLE_addMap]; simp [n1, n2, h3, h4]
      rw [greedySpec_step _ _ _ _ hL (by norm_num) h4]
      simp
    · by_cases h5 : 10 ≤ m
      · have hL : largestLE (makeAddMap aTorMap) m = (10, ['X']) := by
          rw [largestLE_addMap]; simp [n1, n2, h3, h4, h5]
        rw [greedySpec_step _ _ _ _ hL (by norm_num) h5]
        simp
      · by_cases h6 : 5 ≤ m
        · have hL : largestLE (makeAddMap aTorMap) m = (5, ['V']) := by
            rw [largestLE_addMap]; simp [n1, n2, h3, h4, h5, h6]
          rw [greedySpec_step _ _ _ _ hL (by norm_num) h6]
          simp
        · by_cases h7 : 1 ≤ m
          · have hL : largestLE (makeAddMap aTorMap) m = (1, ['I']) := by
              rw [largestLE_addMap]; simp [n1, n2, h3, h4, h5, h6, h7]
            rw [greedySpec_step _ _ _ _ hL (by norm_num) h7]
            simp
          · have hL : largestLE (makeAddMap aTorMap) m = (0, []) := by
              rw [largestLE_addMap]; simp [n1, n2, h3, h4, h5, h6, h7]
            rw [greedySpec_stop _ _ (by rw [hL])]
            simp

theorem greedy_add_head_notCL (m : Nat) (hm : m < 50) :
    (greedySpec (makeAddMap aTorMap) m).head? ≠ some 'C' ∧
      (greedySpec (makeAddMap aTorMap) m).head? ≠ some 'L' := by
  have n1 : ¬ 1000 ≤ m := by omega
  have n2 : ¬ 500 ≤ m := by omega
  have n3 : ¬ 100 ≤ m := by omega
  have n4 : ¬ 50 ≤ m := by omega
  by_cases h5 : 10 ≤ m
  · have hL : largestLE (makeAddMap aTorMap) m = (10, ['X']) := by
      rw [largestLE_addMap]; simp [n1, n2, n3, n4, h5]
    rw [greedySpec_step _ _ _ _ hL (by norm_num) h5]
    simp
  · by_cases h6 : 5 ≤ m
    · have hL : largestLE (makeAddMap aTorMap) m = (5, ['V']) := by
        rw [largestLE_addMap]; simp [n1, n2, n3, n4, h5, h6]
      rw [greedySpec_step _ _ _ _ hL (by norm_num) h6]
      simp
    · by_cases h7 : 1 ≤ m
      · have hL : largestLE (makeAddMap aTorMap) m = (1, ['I']) := by
          rw [largestLE_addMap]; simp [n1, n2, n3, n4, h5, h6, h7]
        rw [greedySpec_step _ _ _ _ hL (by norm_num) h7]
        simp
      · have hL : largestLE (makeAddMap aTorMap) m = (0, []) := by
          rw [largestLE_addMap]; simp [n1, n2, n3, n4, h5, h6, h7]
        rw [greedySpec_stop _ _ (by rw [hL])]
        simp

theorem greedy_add_head_notVX (m : Nat) (hm : m < 5) :
    (greedySpec (makeAddMap aTorMap) m).head? ≠ some 'V' ∧
      (greedySpec (makeAddMap aTorMap) m).head? ≠ some 'X' := by
  have n1 : ¬ 1000 ≤ m := by omega
  have n2 : ¬ 500 ≤ m := by omega
  have n3 : ¬ 100 ≤ m := by omega
  have n4 : ¬ 50 ≤ m := by omega
  have n5 : ¬ 10 ≤ m := by omega
  have n6 : ¬ 5 ≤ m := by omega
  by_cases h7 : 1 ≤ m
  · have hL : largestLE (makeAddMap aTorMap) m = (1, ['I']) := by
      rw [largestLE_addMap]; simp [n1, n2, n3, n4, n5, n6, h7]
    rw [greedySpec_step _ _ _ _ hL (by norm_num) h7]
    simp
  · have hL : largestLE (makeAddMap aTorMap) m = (0, []) := by
      rw [largestLE_addMap]; simp [n1, n2, n3, n4, n5, n6, h7]
    rw [greedySpec_stop _ _ (by rw [hL])]
    simp

theorem parse_greedy_add : ∀ n : Nat, n ≤ 4000 →
    romanToArabic (greedySpec (makeAddMap aTorMap) n) = some n := by
  intro n
  induction n using Nat.strong_induction_on with
  | _ n IH =>
    intro hn
    by_cases h1 : 1000 ≤ n
    · have hL : largestLE (makeAddMap aTorMap) n = (1000, ['M']) := by
        rw [largestLE_addMap]; simp [h1]
      rw [greedySpec_step _ _ _ _ hL (by norm_num) h1]
      show romanToArabic ('M' :: greedySpec (makeAddMap aTorMap) (n - 1000)) = some n
      rw [parse_cons_M, IH (n - 1000) (by omega) (by omega)]
      show some (1000 + (n - 1000)) = some n
      exact congrArg some (by omega)
    · by_cases h2 : 500 ≤ n
      · have hL : largestLE (makeAddMap aTorMap) n = (500, ['D']) := by
          rw [largestLE_addMap]; simp [h1, h2]
        rw [greedySpec_step _ _ _ _ hL (by norm_num) h2]
        show romanToArabic ('D' :: greedySpec (makeAddMap aTorMap) (n - 500)) = some n
        rw [parse_cons_D, IH (n - 500) (by omega) (by omega)]
        show some (500 + (n - 500)) = some n
        exact congrArg some (by omega)
      · by_cases h3 : 100 ≤ n
        · have hL : largestLE (makeAddMap aTorMap) n = (100, ['C']) := by
            rw [largestLE_addMap]; simp [h1, h2, h3]
          rw [greedySpec_step _ _ _ _ hL (by norm_num) h3]
          show romanToArabic ('C' :: greedySpec (makeAddMap aTorMap) (n - 100)) = some n
          obtain ⟨hh1, hh2⟩ := greedy_add_head_notMD (n - 100) (by omega)
          rw [parse_cons_C _ hh1 hh2, IH (n - 100) (by omega) (by omega)]
          show some (100 + (n - 100)) = some n
          exact congrArg some (by omega)
        · by_cases h4 : 50 ≤ n
          · have hL : largestLE (makeAddMap aTorMap) n = (50, ['L']) := by
              rw [largestLE_addMap]; simp [h1, h2, h3, h4]
            rw [greedySpec_step _ _ _ _ hL (by norm_num) h4]
            show romanToArabic ('L' :: greedySpec (makeAddMap aTorMap) (n - 50)) = some n
            rw [parse_cons_L, IH (n - 50) (by omega) (by omega)]
            show some (50 + (n - 50)) = some n
            exact congrArg some (by omega)
          · by_cases h5 : 10 ≤ n
            · have hL : largestLE (makeAddMap aTorMap) n = (10, ['X']) := by
                rw [largestLE_addMap]; simp [h1, h2, h3, h4, h5]
              rw [greedySpec_step _ _ _ _ hL (by norm_num) h5]
              show romanToArabic ('X' :: greedySpec (makeAddMap aTorMap) (n - 10)) = some n
              obtain ⟨hh1, hh2⟩ := greedy_add_head_notCL (n - 10) (by omega)
              rw [parse_cons_X _ hh1 hh2, IH (n - 10) (by omega) (by omega)]
              show some (10 + (n - 10)) = some n
              exact congrArg some (by omega)
            · by_cases h6 : 5 ≤ n
              · have hL : largestLE (makeAddMap aTorMap) n = (5, ['V']) := by
                  rw [largestLE_addMap]; simp [h1, h2, h3, h4, h5, h6]
                rw [greedySpec_step _ _ _ _ hL (by norm_num) h6]
                show romanToArabic ('V' :: greedySpec (makeAddMap aTorMap) (n - 5)) = some n
                rw [parse_cons_V, IH (n - 5) (by omega) (by omega)]
                show some (5 + (n - 5)) = some n
                exact congrArg some (by omega)
              · by_cases h7 : 1 ≤ n
                · have hL : largestLE (makeAddMap aTorMap) n = (1, ['I']) := by
                    rw [largestLE_addMap]; simp [h1, h2, h3, h4, h5, h6, h7]
                  rw [greedySpec_step _ _ _ _ hL (by norm_num) h7]
                  show romanToArabic ('I' :: greedySpec (makeAddMap aTorMap) (n - 1)) = some n
                  obtain ⟨hh1, hh2⟩ := greedy_add_head_notVX (n - 1) (by omega)
                  rw [parse_cons_I _ hh2 hh1, IH (n - 1) (by omega) (by omega)]
                  show some (1 + (n - 1)) = some n
                  exact congrArg some (by omega)
                · have hz : n = 0 := by omega
                  subst hz
                  have hL : (largestLE (makeAddMap aTorMap) 0).1 = 0 := by
                    rw [largestLE_addMap]; simp
                  rw [greedySpec_stop _ _ hL]
                  rfl

theorem findLargest_eq (n : Int) (m : List (Nat × List Char))
    (h0 : 0 ≤ n) (h1 : n < 65536) : findLargest n m = largestLE m n.toNat := by
  unfold findLargest largestLE
  have he : n % 65536 = n := Int.emod_eq_of_lt h0 h1
  rw [he]

theorem largestLE_fst_le (m : List (Nat × List Char)) (u : Nat) :
    (largestLE m u).1 ≤ u ∨ (largestLE m u).1 = 0 := by
  have aux : ∀ (l : List (Nat × List Char)) (acc : Nat × List Char),
      acc.1 ≤ u ∨ acc.1 = 0 →
      (l.foldl (fun acc p => if p.1 ≤ u ∧ acc.1 < p.1 then p else acc) acc).1 ≤ u ∨
        (l.foldl (fun acc p => if p.1 ≤ u ∧ acc.1 < p.1 then p else acc) acc).1 = 0 := by
    intro l
    induction l with
    | nil => intro acc hacc; simpa using hacc
    | cons q l IH =>
      intro acc hacc
      simp only [List.foldl]
      apply IH
      by_cases hq : q.1 ≤ u ∧ acc.1 < q.1
      · rw [if_pos hq]; exact Or.inl hq.1
      · rw [if_neg hq]; exact hacc
  exact aux m (0, []) (Or.inr rfl)

theorem largestLE_fst_pos (m : List (Nat × List Char)) (u : Nat)
    (hmem : ∃ p ∈ m, 0 < p.1 ∧ p.1 ≤ u) : 0 < (largestLE m u).1 := by
  have aux : ∀ (l : List (Nat × List Char)) (acc : Nat × List Char),
      (∃ p ∈ l, 0 < p.1 ∧ p.1 ≤ u) ∨ 0 < acc.1 →
      0 < (l.foldl (fun acc p => if p.1 ≤ u ∧ acc.1 < p.1 then p else acc) acc).1 := by
    intro l
    induction l with
    | nil =>
      intro acc hacc
      rcases hacc with ⟨p, hp, _⟩ | hpos
      · simp at hp
      · simpa using hpos
    | cons q l IH =>
      intro acc hacc
      simp only [List.foldl]
      apply IH
      rcases hacc with ⟨p, hp, hp1, hp2⟩ | hpos
      · rcases List.mem_cons.mp hp with rfl | hpl
        · by_cases hq : p.1 ≤ u ∧ acc.1 < p.1
          · rw [if_pos hq]; exact Or.inr hp1
          · rw [if_neg hq]
            right
            have : ¬ acc.1 < p.1 := fun hlt => hq ⟨hp2, hlt⟩
            omega
        · exact Or.inl ⟨p, hpl, hp1, hp2⟩
      · right
        by_cases hq : q.1 ≤ u ∧ acc.1 < q.1
        · rw [if_pos hq]; omega
        · rw [if_neg hq]; exact hpos
  exact aux m (0, []) (Or.inl hmem)

theorem a2rLoop_some (m : List (Nat × List Char))
    (hm : m = aTorMap ∨ m = makeAddMap aTorMap) :
    ∀ (fuel : Nat) (current : Int) (acc : List Char), 0 ≤ current →
      current ≤ 65535 → current.toNat ≤ fuel →
      a2rLoop m fuel current acc = some (acc ++ greedySpec m current.toNat) := by
  have hone : (1, ['I']) ∈ m := by
    rcases hm with rfl | rfl
    · decide
    · decide
  intro fuel
  induction fuel with
  | zero =>
    intro current acc h0 h4 hf
    have hz : current = 0 := by omega
    subst hz
    have hL : (largestLE m 0).1 = 0 := by
      rcases largestLE_fst_le m 0 with h | h
      · omega
      · exact h
    rw [greedySpec_stop _ _ (by simpa using hL)]
    simp [a2rLoop]
  | succ fuel IH =>
    intro current acc h0 h4 hf
    by_cases hpos : current > 0
    · have hfl : findLargest current m = largestLE m current.toNat :=
        findLargest_eq current m h0 (by omega)
      have hkey1 : 0 < (largestLE m current.toNat).1 :=
        largestLE_fst_pos m current.toNat ⟨(1, ['I']), hone, by omega, by omega⟩
      have hkey2 : (largestLE m current.toNat).1 ≤ current.toNat := by
        rcases largestLE_fst_le m current.toNat with h | h
        · exact h
        · omega
      show (if current > 0 then
          a2rLoop m fuel (current - ((findLargest current m).1 : Int))
            (acc ++ (findLargest current m).2)
        else some acc) = some (acc ++ greedySpec m current.toNat)
      rw [if_pos hpos, hfl]
      rw [IH (current - ((largestLE m current.toNat).1 : Int))
          (acc ++ (largestLE m current.toNat).2) (by omega) (by omega) (by omega)]
      have hsub : (current - ((largestLE m current.toNat).1 : Int)).toNat =
          current.toNat - (largestLE m current.toNat).1 := by omega
      rw [hsub]
      rw [greedySpec_step m current.toNat (largestLE m current.toNat).1
          (largestLE m current.toNat).2 rfl hkey1 hkey2]
      rw [List.append_assoc]
    · have hz : current = 0 := by omega
      subst hz
      have hL : (largestLE m 0).1 = 0 := by
        rcases largestLE_fst_le m 0 with h | h
        · omega
        · exact h
      rw [greedySpec_stop _ _ (by simpa using hL)]
      simp [a2rLoop]

theorem a2r_eq_greedy (addF : Bool) (n : Int) (h0 : 0 ≤ n) (h4 : n ≤ 65535) :
    arabicToRoman addF n =
      some (greedySpec (if addF then makeAddMap aTorMap else aTorMap) n.toNat) := by
  unfold arabicToRoman
  cases addF with
  | false =>
    simpa using a2rLoop_some aTorMap (Or.inl rfl) n.toNat n [] h0 h4 (le_refl _)
  | true =>
    simpa using a2rLoop_some (makeAddMap aTorMap) (Or.inr rfl) n.toNat n [] h0 h4 (le_refl _)

/-- C1: for every integer n in [1,4000], converting n to Roman in
subtractive mode and converting the result back to Arabic yields n. -/
theorem c1_subtractive_roundtrip (n : Nat) (h1 : 1 ≤ n) (h2 : n ≤ 4000) :
    (arabicToRoman false (n : Int)).bind romanToArabic = some n := by
  rw [a2r_eq_greedy false (n : Int) (Int.natCast_nonneg n) (by omega)]
  exact parse_greedy_sub n h2

/-- Witness for C1 at n = 1965. -/
theorem c1_subtractive_roundtrip_witness :
    (1 ≤ 1965 ∧ 1965 ≤ 4000) ∧
      (arabicToRoman false ((1965 : Nat) : Int)).bind romanToArabic = some 1965 :=
  ⟨⟨by decide, by decide⟩, c1_subtractive_roundtrip 1965 (by decide) (by decide)⟩

/-- C2: the additive round-trip holds on [1,4000]; the decoder accepts
additive-only forms such as IIII, and 4 is rendered IIII in additive mode,
not IV. -/
theorem c2_additive_roundtrip (n : Nat) (h1 : 1 ≤ n) (h2 : n ≤ 4000) :
    (arabicToRoman true (n : Int)).bind romanToArabic = some n ∧
      arabicToRoman true 4 = some ['I', 'I', 'I', 'I'] ∧
      arabicToRoman false 4 = some ['I', 'V'] ∧
      romanToArabic ['I', 'I', 'I', 'I'] = some 4 := by
  refine ⟨?_, by decide, by decide, by decide⟩
  rw [a2r_eq_greedy true (n : Int) (Int.natCast_nonneg n) (by omega)]
  exact parse_greedy_add n h2

/-- Witness for C2 at n = 1965. -/
theorem c2_additive_roundtrip_witness :
    (1 ≤ 1965 ∧ 1965 ≤ 4000) ∧
      (arabicToRoman true ((1965 : Nat) : Int)).bind romanToArabic = some 1965 :=
  ⟨⟨by decide, by decide⟩, (c2_additive_roundtrip 1965 (by decide) (by decide)).1⟩

/-- C3: on [1,4000] and either mode, arabicToRoman terminates (returns a
value) and equals the greedy algorithm of the spec: repeatedly append the
symbol of the largest entry of the mode-selected table whose value is at
most the accumulator, subtract that value, and stop exactly at zero. -/
theorem c3_greedy_algorithm (addF : Bool) (n : Nat) (h1 : 1 ≤ n) (h2 : n ≤ 4000) :
    arabicToRoman addF (n : Int) =
      some (greedySpec (if addF then makeAddMap aTorMap else aTorMap) n) := by
  have h := a2r_eq_greedy addF (n : Int) (Int.natCast_nonneg n) (by omega)
  simpa using h

/-- Witness for C3 at addF = false, n = 7. -/
theorem c3_greedy_algorithm_witness :
    (1 ≤ 7 ∧ 7 ≤ 4000) ∧
      arabicToRoman false ((7 : Nat) : Int) =
        some (greedySpec (if false then makeAddMap aTorMap else aTorMap) 7) :=
  ⟨⟨by decide, by decide⟩, c3_greedy_algorithm false 7 (by decide) (by decide)⟩

/-- C6: the Arabic validator fails exactly when the value is below 1 or
above 4000; 1 and 4000 convert (to I and MMMM), 0 and 4001 are rejected. -/
theorem c6_validator_range :
    (∀ n : Int, isValArabic n ≠ none ↔ (n < 1 ∨ n > 4000)) ∧
      arabicToRoman false 1 = some ['I'] ∧
      arabicToRoman false 4000 = some ['M', 'M', 'M', 'M'] ∧
      isValArabic 0 ≠ none ∧ isValArabic 4001 ≠ none := by
  refine ⟨?_, by decide, by decide, by decide, by decide⟩
  intro n
  unfold isValArabic
  split_ifs with hA hB
  · simp
    omega
  · simp
    omega
  · simp
    omega

/-- C7 as stated is false: in range mode the out-of-range value 4001 is
not rejected; genRange produces an output line for it. -/
theorem c7_counterexample :
    genRange false false 4001 4001 = some [("4001 = MMMMI").data] ∧
      isValArabic 4001 ≠ none := by decide

/-- A non-positive input makes the conversion loop body never run, so the
converter yields the empty string with no error. -/
theorem a2r_nonpos (addF : Bool) (n : Int) (h : n ≤ 0) :
    arabicToRoman addF n = some [] := by
  unfold arabicToRoman
  have ht : n.toNat = 0 := by omega
  rw [ht]
  show (if n > 0 then none else some []) = some []
  exact if_neg (by omega)

/-- C7 amended: in range mode, out-of-range values are passed to the
converter without any range validation and no RangeError occurs — every
value v with 4000 < v ≤ 65535 is greedily rendered to a Roman string
beginning with M, every value v ≤ 0 yields the empty Roman string (an
empty Roman part in its range line), and the section-4.2 validator, which
range mode never consults, would have rejected every such value; the
ranges [4001,4001] and [0,0] concretely produce the lines 4001 = MMMMI
and 0 = . -/
theorem c7_amended_no_range_validation :
    (∀ i : Int, 4000 < i → i ≤ 65535 →
        ∃ r, arabicToRoman false i = some ('M' :: r)) ∧
      (∀ i : Int, i ≤ 0 → arabicToRoman false i = some []) ∧
      (∀ i : Int, i < 1 ∨ 4000 < i → isValArabic i ≠ none) ∧
      genRange false false 4001 4001 = some [("4001 = MMMMI").data] ∧
      genRange false false 0 0 = some [("0 = ").data] := by
  refine ⟨?_, fun i h => a2r_nonpos false i h, ?_, by decide, by decide⟩
  · intro i hlo hhi
    rw [a2r_eq_greedy false i (by omega) hhi]
    show ∃ r, some (greedySpec aTorMap i.toNat) = some ('M' :: r)
    have hu : 1000 ≤ i.toNat := by omega
    have hL : largestLE aTorMap i.toNat = (1000, ['M']) := by
      rw [largestLE_aTorMap]
      simp [hu]
    rw [greedySpec_step _ _ _ _ hL (by norm_num) (by omega)]
    exact ⟨greedySpec aTorMap (i.toNat - 1000), rfl⟩
  · intro i hi
    unfold isValArabic
    split_ifs with hA hB
    · simp
    · simp
    · exfalso
      omega

/-- Witness for the amended C7 at i = 4321 and i = -7. -/
theorem c7_amended_no_range_validation_witness :
    ((4000 : Int) < 4321 ∧ (4321 : Int) ≤ 65535 ∧ (-7 : Int) ≤ 0) ∧
      (∃ r, arabicToRoman false 4321 = some ('M' :: r)) ∧
      arabicToRoman false (-7) = some [] :=
  ⟨⟨by decide, by decide, by decide⟩,
    c7_amended_no_range_validation.1 4321 (by decide) (by decide),
    c7_amended_no_range_validation.2.1 (-7) (by decide)⟩

/-- C8: the formatter returns "arabic = roman" with a tab-and-(add) suffix
in additive verbose mode and just the roman string in simple mode; input
1965 in additive mode formats accordingly. -/
theorem c8_formatter :
    (∀ (addF : Bool) (arVal : Int) (romVal : List Char),
        formatValue false addF arVal romVal NumType.Roman =
          intDec arVal ++ (" = ").data ++ romVal ++
            (if addF then ("\t (add)").data else []) ∧
        formatValue true addF arVal romVal NumType.Roman = romVal) ∧
      (arabicToRoman true 1965).map
          (fun r => formatValue false true 1965 r NumType.Roman) =
        some (("1965 = MDCCCCLXV\t (add)").data) ∧
      (arabicToRoman true 1965).map
          (fun r => formatValue true true 1965 r NumType.Roman) =
        some (("MDCCCCLXV").data) := by
  refine ⟨fun addF arVal romVal => ⟨rfl, rfl⟩, by decide, by decide⟩

/-- C10: for every non-positive input, arabicToRoman returns the empty
string with no error, so a range starting below 1 yields lines with an
empty Roman part. -/
theorem c10_nonpositive_empty :
    (∀ (addF : Bool) (n : Int), n ≤ 0 → arabicToRoman addF n = some []) ∧
      genRange false false 0 1 = some [("0 = ").data, ("1 = I").data] := by
  constructor
  · intro addF n h
    unfold arabicToRoman
    have ht : n.toNat = 0 := by omega
    rw [ht]
    show (if n > 0 then none else some []) = some []
    exact if_neg (by omega)
  · decide

/-- Witness for C10 at addF = false, n = -5. -/
theorem c10_nonpositive_empty_witness :
    ((-5 : Int) ≤ 0) ∧ arabicToRoman false (-5) = some [] :=
  ⟨by decide, c10_nonpositive_empty.1 false (-5) (by decide)⟩

theorem matchArabicPat_iff (s : List Char) :
    matchArabicPat s = true ↔ ArabicShape s := by
  cases s with
  | nil => simp [matchArabicPat, ArabicShape]
  | cons c rest =>
    simp only [matchArabicPat, Bool.and_eq_true, List.all_eq_true,
      decide_eq_true_eq, ArabicShape]
    constructor
    · rintro ⟨⟨hc1, hc2⟩, hall⟩
      exact ⟨c, rest, rfl, hc1, hc2, fun d hd => by
        have := hall d hd
        simpa using this⟩
    · rintro ⟨c', rest', heq, hc1, hc2, hall⟩
      cases heq
      exact ⟨⟨hc1, hc2⟩, fun d hd => by simpa using hall d hd⟩

theorem matchRomanPat_iff (s : List Char) :
    matchRomanPat s = true ↔ RomanShape s := by
  simp only [matchRomanPat, Bool.and_eq_true, Bool.not_eq_true',
    List.isEmpty_eq_false_iff_exists_mem, List.all_eq_true, RomanShape]
  constructor
  · rintro ⟨hne, hall⟩
    refine ⟨?_, fun c hc => ?_⟩
    · rcases hne with ⟨x, hx⟩
      intro habs
      subst habs
      simp at hx
    · have := hall c hc
      simpa [List.contains, List.elem_iff] using this
  · rintro ⟨hne, hall⟩
    refine ⟨?_, fun c hc => ?_⟩
    · cases s with
      | nil => exact absurd rfl hne
      | cons a t => exact ⟨a, by simp⟩
    · simpa [List.contains, List.elem_iff] using hall c hc

/-- C5: the classifier returns Arabic exactly on strings of shape
[1-9][0-9]*, otherwise Roman exactly on non-empty strings over IVXLCDM,
and Undefined otherwise; the five concrete inputs classify as stated. -/
theorem c5_classifier :
    (∀ s : List Char,
        (whichNumeralType s = NumType.Arabic ↔ ArabicShape s) ∧
        (whichNumeralType s = NumType.Roman ↔ (¬ ArabicShape s ∧ RomanShape s)) ∧
        (whichNumeralType s = NumType.UnDef ↔ (¬ ArabicShape s ∧ ¬ RomanShape s))) ∧
      whichNumeralType ("1965").data = NumType.Arabic ∧
      whichNumeralType ("MCMLXV").data = NumType.Roman ∧
      whichNumeralType ([] : List Char) = NumType.UnDef ∧
      whichNumeralType ("abc123").data = NumType.UnDef ∧
      whichNumeralType ("iv").data = NumType.UnDef := by
  refine ⟨?_, by decide, by decide, by decide, by decide, by decide⟩
  intro s
  unfold whichNumeralType
  split_ifs with hA hR
  · have hA' := (matchArabicPat_iff s).mp hA
    simp [hA']
  · have hA' : ¬ ArabicShape s := fun h => by
      rw [(matchArabicPat_iff s).mpr h] at hA
      exact hA rfl
    have hR' := (matchRomanPat_iff s).mp hR
    simp [hA', hR']
  · have hA' : ¬ ArabicShape s := fun h => by
      rw [(matchArabicPat_iff s).mpr h] at hA
      exact hA rfl
    have hR' : ¬ RomanShape s := fun h => by
      rw [(matchRomanPat_iff s).mpr h] at hR
      exact hR rfl
    simp [hA', hR']

theorem rToaLookup_pair_ge (c d : Char) (v : Nat)
    (hp : rToaLookup [c, d] = some v) : 1 ≤ v := by
  rw [rToaLookup_pair] at hp
  split_ifs at hp <;> (injection hp with h; omega)

theorem alpha_single (c : Char) (hc : c ∈ romanChars) :
    ∃ v, rToaLookup [c] = some v ∧ 1 ≤ v := by
  simp only [romanChars, List.mem_cons, List.not_mem_nil, or_false] at hc
  rcases hc with rfl | rfl | rfl | rfl | rfl | rfl | rfl
  · exact ⟨1, by decide, by decide⟩
  · exact ⟨5, by decide, by decide⟩
  · exact ⟨10, by decide, by decide⟩
  · exact ⟨50, by decide, by decide⟩
  · exact ⟨100, by decide, by decide⟩
  · exact ⟨500, by decide, by decide⟩
  · exact ⟨1000, by decide, by decide⟩

theorem r2a_alpha : ∀ (k : Nat) (s : List Char), s.length ≤ k →
    (∀ c ∈ s, c ∈ romanChars) →
    ∃ v, romanToArabic s = some v ∧ (s ≠ [] → 1 ≤ v) := by
  intro k
  induction k with
  | zero =>
    intro s hlen hall
    have hs : s = [] := List.length_eq_zero.mp (by omega)
    subst hs
    exact ⟨0, rfl, by simp⟩
  | succ k IH =>
    intro s hlen hall
    match s with
    | [] => exact ⟨0, rfl, by simp⟩
    | [c] =>
      obtain ⟨v, hv, hv1⟩ := alpha_single c (hall c (by simp))
      exact ⟨v, by simp [romanToArabic, hv], fun _ => hv1⟩
    | c :: d :: t =>
      cases hp : rToaLookup [c, d] with
      | some v =>
        obtain ⟨w, hw, _⟩ := IH t (by simp at hlen ⊢; omega)
          (fun x hx => hall x (by simp [hx]))
        refine ⟨v + w, ?_, fun _ => ?_⟩
        · rw [parse_cons_pair c d v t hp, hw]
          rfl
        · have := rToaLookup_pair_ge c d v hp
          omega
      | none =>
        obtain ⟨v, hv, hv1⟩ := alpha_single c (hall c (by simp))
        obtain ⟨w, hw, _⟩ := IH (d :: t) (by simp at hlen ⊢; omega)
          (fun x hx => hall x (by simp at hx ⊢; tauto))
        refine ⟨v + w, ?_, fun _ => ?_⟩
        · simp [romanToArabic, hp, hv, hw]
        · omega

/-- C9: for every non-empty string over the Roman alphabet, romanToArabic
succeeds (the invalid-character branch is unreachable) and the value is at
least 1. -/
theorem c9_alphabet_safety (s : List Char) (hne : s ≠ [])
    (hall : ∀ c ∈ s, c ∈ romanChars) :
    ∃ v, romanToArabic s = some v ∧ 1 ≤ v := by
  obtain ⟨v, hv, himp⟩ := r2a_alpha s.length s (le_refl _) hall
  exact ⟨v, hv, himp hne⟩

/-- Witness for C9 at s = MCMLXV. -/
theorem c9_alphabet_safety_witness :
    (("MCMLXV").data ≠ [] ∧ ∀ c ∈ ("MCMLXV").data, c ∈ romanChars) ∧
      ∃ v, romanToArabic (("MCMLXV").data) = some v ∧ 1 ≤ v :=
  ⟨⟨by decide, by decide⟩,
    c9_alphabet_safety (("MCMLXV").data) (by decide) (by decide)⟩

theorem pairEntries_eval : rToaMap.filter (fun p => p.1.length == 2) =
    [(['C', 'M'], 900), (['C', 'D'], 400), (['X', 'C'], 90),
     (['X', 'L'], 40), (['I', 'X'], 9), (['I', 'V'], 4)] := by decide

theorem singleEntries_eval : rToaMap.filter (fun p => p.1.length == 1) =
    [(['M'], 1000), (['D'], 500), (['C'], 100), (['L'], 50),
     (['X'], 10), (['V'], 5), (['I'], 1)] := by decide

theorem pairFind_bridge (c d : Char) :
    ((rToaMap.filter (fun p => p.1.length == 2)).find?
        (fun p => p.1 == [c, d])).map Prod.snd = rToaLookup [c, d] := by
  rw [pairEntries_eval, rToaLookup_pair]
  by_cases hc : c = 'C'
  · subst hc
    by_cases hd : d = 'M'
    · subst hd; decide
    · by_cases hd2 : d = 'D'
      · subst hd2; decide
      · simp [List.find?, hd, hd2,
          beq_eq_false_iff_ne.mpr (Ne.symm hd),
          beq_eq_false_iff_ne.mpr (Ne.symm hd2)]
  · by_cases hx : c = 'X'
    · subst hx
      by_cases hd : d = 'C'
      · subst hd; decide
      · by_cases hd2 : d = 'L'
        · subst hd2; decide
        · simp [List.find?, hc, hd, hd2,
            beq_eq_false_iff_ne.mpr (Ne.symm hd),
            beq_eq_false_iff_ne.mpr (Ne.symm hd2)]
    · by_cases hi : c = 'I'
      · subst hi
        by_cases hd : d = 'X'
        · subst hd; decide
        · by_cases hd2 : d = 'V'
          · subst hd2; decide
          · simp [List.find?, hc, hx, hd, hd2,
              beq_eq_false_iff_ne.mpr (Ne.symm hd),
              beq_eq_false_iff_ne.mpr (Ne.symm hd2)]
      · simp [List.find?, hc, hx, hi,
          beq_eq_false_iff_ne.mpr (Ne.symm hc),
          beq_eq_false_iff_ne.mpr (Ne.symm hx),
          beq_eq_false_iff_ne.mpr (Ne.symm hi)]

theorem pairFind_single (c : Char) :
    (rToaMap.filter (fun p => p.1.length == 2)).find?
      (fun p => p.1 == [c]) = none := by
  rw [pairEntries_eval]
  simp [List.find?]

theorem singleFind_bridge (c : Char) :
    ((rToaMap.filter (fun p => p.1.length == 1)).find?
        (fun p => p.1 == [c])).map Prod.snd = rToaLookup [c] := by
  rw [singleEntries_eval, rToaLookup_single]
  by_cases h1 : c = 'M'
  · subst h1; decide
  · by_cases h2 : c = 'D'
    · subst h2; decide
    · by_cases h3 : c = 'C'
      · subst h3; decide
      · by_cases h4 : c = 'L'
        · subst h4; decide
        · by_cases h5 : c = 'X'
          · subst h5; decide
          · by_cases h6 : c = 'V'
            · subst h6; decide
            · by_cases h7 : c = 'I'
              · subst h7; decide
              · simp [List.find?, h1, h2, h3, h4, h5, h6, h7,
                  beq_eq_false_iff_ne.mpr (Ne.symm h1),
                  beq_eq_false_iff_ne.mpr (Ne.symm h2),
                  beq_eq_false_iff_ne.mpr (Ne.symm h3),
                  beq_eq_false_iff_ne.mpr (Ne.symm h4),
                  beq_eq_false_iff_ne.mpr (Ne.symm h5),
                  beq_eq_false_iff_ne.mpr (Ne.symm h6),
                  beq_eq_false_iff_ne.mpr (Ne.symm h7)]

theorem specScan_eq_suffix : ∀ (k : Nat) (s : List Char) (i : Nat),
    s.length - i ≤ k → specScan s i = romanToArabic (s.drop i) := by
  intro k
  induction k with
  | zero =>
    intro s i h
    rw [specScan, dif_neg (by omega), List.drop_eq_nil_of_le (by omega)]
    rfl
  | succ k IH =>
    intro s i h
    by_cases hi : i < s.length
    · rw [specScan, dif_pos hi]
      simp only [List.get_eq_getElem]
      by_cases hi2 : i + 1 < s.length
      · have hdrop : s.drop i = s[i] :: s.drop (i + 1) :=
          List.drop_eq_getElem_cons hi
        have hdrop2 : s.drop (i + 1) = s[i + 1] :: s.drop (i + 2) :=
          List.drop_eq_getElem_cons hi2
        have htake : (s.drop i).take 2 = [s[i], s[i + 1]] := by
          rw [hdrop, hdrop2]
          rfl
        rw [htake]
        cases hrl : rToaLookup [s[i], s[i + 1]] with
        | some v =>
          obtain ⟨p, hfind, hp2⟩ := Option.map_eq_some'.mp
            (by rw [pairFind_bridge]; exact hrl)
          rw [hfind]
          show (specScan s (i + 2)).map (fun t => p.2 + t) =
            romanToArabic (s.drop i)
          rw [hdrop, hdrop2, parse_cons_pair _ _ v _ hrl,
            IH s (i + 2) (by omega), hp2]
        | none =>
          have hfnone : (rToaMap.filter (fun p => p.1.length == 2)).find?
              (fun p => p.1 == [s[i], s[i + 1]]) = none := by
            apply Option.map_eq_none'.mp
            rw [pairFind_bridge]
            exact hrl
          rw [hfnone]
          cases hsl : rToaLookup [s[i]] with
          | some v =>
            obtain ⟨q, hqfind, hq2⟩ := Option.map_eq_some'.mp
              (by rw [singleFind_bridge]; exact hsl)
            rw [hqfind]
            show (specScan s (i + 1)).map (fun t => q.2 + t) =
              romanToArabic (s.drop i)
            rw [IH s (i + 1) (by omega), hq2, hdrop,
              parse_cons_of_single _ v _ hsl]
            intro d hd
            rw [hdrop2] at hd
            have hdg : d = s[i + 1] := by
              injection hd with h1
              exact h1.symm
            subst hdg
            exact hrl
          | none =>
            have hqnone : (rToaMap.filter (fun p => p.1.length == 1)).find?
                (fun p => p.1 == [s[i]]) = none := by
              apply Option.map_eq_none'.mp
              rw [singleFind_bridge]
              exact hsl
            rw [hqnone, hdrop, hdrop2]
            simp [romanToArabic, hrl, hsl]
      · have hdrop : s.drop i = [s[i]] := by
          rw [List.drop_eq_getElem_cons hi, List.drop_eq_nil_of_le (by omega)]
        have htake : (s.drop i).take 2 = [s[i]] := by
          rw [hdrop]
          rfl
        rw [htake, pairFind_single]
        cases hsl : rToaLookup [s[i]] with
        | some v =>
          obtain ⟨q, hqfind, hq2⟩ := Option.map_eq_some'.mp
            (by rw [singleFind_bridge]; exact hsl)
          rw [hqfind]
          show (specScan s (i + 1)).map (fun t => q.2 + t) =
            romanToArabic (s.drop i)
          rw [IH s (i + 1) (by omega), List.drop_eq_nil_of_le (by omega),
            hq2, hdrop]
          simp [romanToArabic, hsl]
        | none =>
          have hqnone : (rToaMap.filter (fun p => p.1.length == 1)).find?
              (fun p => p.1 == [s[i]]) = none := by
            apply Option.map_eq_none'.mp
            rw [singleFind_bridge]
            exact hsl
          rw [hqnone, hdrop]
          simp [romanToArabic, hsl]
    · rw [specScan, dif_neg hi, List.drop_eq_nil_of_le (by omega)]
      rfl

/-- C4: on strings over the Roman alphabet the decoder equals the
position-based left-to-right scan of the spec (two-character pair entries
first, then single characters), and it is permissive: the non-canonical
forms IIII and VV are summed, not rejected. -/
theorem c4_scan_permissive (s : List Char) (hall : ∀ c ∈ s, c ∈ romanChars) :
    romanToArabic s = specScan s 0 ∧
      romanToArabic (("IIII").data) = some 4 ∧
      romanToArabic (("VV").data) = some 10 := by
  refine ⟨?_, by decide, by decide⟩
  rw [specScan_eq_suffix s.length s 0 (by omega), List.drop_zero]

/-- Witness for C4 at s = IIII. -/
theorem c4_scan_permissive_witness :
    (∀ c ∈ ("IIII").data, c ∈ romanChars) ∧
      romanToArabic (("IIII").data) = specScan (("IIII").data) 0 :=
  ⟨by decide, (c4_scan_permissive (("IIII").data) (by decide)).1⟩

end RomanConv
